import Mathlib

/-!
Shallow embedding of `run_dhce_cv.py`, the DHCE 50/50 hold-out evaluation
harness: atom scoring (`metrics`), witness selection and solver-invocation
handling (`run_clingo`), the hyperparameter grid, the per-split grid fold,
seeded shuffling and split construction, and the experiment/report assembly.

Modelling conventions: machine strings are `String` viewed through `.data`
(`List Char`); Python floats of the form `v / 10000.0` are modelled as `ℚ`
(division is exact and order-isomorphic in the exercised range); the solver
subprocess boundary (`subprocess.run` + `json.loads`) is modelled by the
inductive `ProcOutcome` — timeout, or an exit code together with the parsed
JSON document (`none` = `JSONDecodeError`) and the measured wall-clock time.
-/

namespace DHCE

/-- Character-list prefix test: model of Python `str.startswith`. -/
def isPre : List Char → List Char → Bool
  | [], _ => true
  | _ :: _, [] => false
  | c :: cs, d :: ds => c = d && isPre cs ds

/-- `startsWithL a p` : does atom `a` start with tag `p`? -/
def startsWithL (a p : String) : Bool := isPre p.data a.data

/-- Model of the Python slice `a[17:-1]` applied to an error atom. -/
def errSlice (a : String) : String := String.mk ((a.data.drop 17).dropLast)

/-- Decimal digit value of a character. -/
def digitVal? (c : Char) : Option ℕ :=
  if '0' ≤ c ∧ c ≤ '9' then some (c.toNat - 48) else none

/-- Parse a nonempty string of decimal digits. -/
def parseNatL : List Char → Option ℕ
  | [] => none
  | cs => cs.foldl (fun acc c => acc.bind fun n => (digitVal? c).map fun d => 10 * n + d) (some 0)

/-- Model of Python `int(...)` on the sliced error atom: an optional minus
sign followed by decimal digits (the whitespace/underscore tolerance of
Python `int` is not exercised by any atom in this development). -/
def parseIntL (s : String) : Option ℤ :=
  match s.data with
  | '-' :: rest => (parseNatL rest).map fun n => -(n : ℤ)
  | cs => (parseNatL cs).map fun n => (n : ℤ)

/-- The atom tag carrying the scaled test error. -/
def errTag : String := "error_test_pp10k("

/-- The atom tag of a default-rule body literal. -/
def defaultBodyTag : String := "default_body("

/-- The atom tag of an exception-rule body literal. -/
def exceptionBodyTag : String := "exception_body("

/-- One step of the scan inside `metrics` (source lines 102–106): the running
state is `(err?, lits)`; an `error_test_pp10k(v)` atom overwrites `err?` with
`v / 10000`, a `default_body(`/`exception_body(` atom increments `lits`.
(The source's `int(...)` raises on non-numeric text; that branch is modelled
as leaving the state unchanged and is exercised by no claim.) -/
def metricsStep (s : Option ℚ × ℕ) (a : String) : Option ℚ × ℕ :=
  if startsWithL a errTag then
    match parseIntL (errSlice a) with
    | some v => (some ((v : ℚ) / 10000), s.2)
    | none => s
  else if startsWithL a defaultBodyTag || startsWithL a exceptionBodyTag then
    (s.1, s.2 + 1)
  else s

/-- `metrics` (source lines 98–107): extract the test error and the literal
count from one witness's atom list; `(none, none)` on an empty list. -/
def metrics (atoms : List String) : Option ℚ × Option ℕ :=
  match atoms with
  | [] => (none, none)
  | _ :: _ =>
    let r := atoms.foldl metricsStep (none, 0)
    (r.1, some r.2)

/-- Python `metrics(atoms)` where `atoms` may be `None`: `not None` and
`not []` both take the early-return branch. -/
def metricsOpt : Option (List String) → Option ℚ × Option ℕ
  | none => (none, none)
  | some l => metrics l

/-- The parsed JSON document of a clingo run: the `Call` array, each call
holding a `Witnesses` array, each witness holding its `Value` atom list
(absent keys default to `[]` via `dict.get`). -/
structure ClingoDoc where
  calls : List (List (List String))
deriving DecidableEq

/-- Outcome of `subprocess.run` + `json.loads` for one clingo invocation:
wall-clock timeout, or an exit code together with the parse result of stdout
(`none` = `json.JSONDecodeError`) and the measured wall-clock runtime. -/
inductive ProcOutcome where
  | timeout : ProcOutcome
  | finished (returncode : ℤ) (parsed : Option ClingoDoc) (runtime : ℚ) : ProcOutcome
deriving DecidableEq

/-- The running best-witness state of the loop in `run_clingo` (source lines
85–93): `(best_atoms, best_err, best_lits)`, initialised to
`(None, 1.0, 10**9)`. -/
def witInit : Option (List String) × ℚ × ℕ := (none, 1, 10 ^ 9)

/-- One iteration of the witness loop in `run_clingo` (source lines 87–93):
skip unscored witnesses, replace the running best on strictly lower error or
equal error with strictly fewer literals. -/
def witStep (b : Option (List String) × ℚ × ℕ) (atoms : List String) :
    Option (List String) × ℚ × ℕ :=
  match metrics atoms with
  | (some err, some lits) =>
    if err < b.2.1 ∨ (err = b.2.1 ∧ lits < b.2.2) then (some atoms, err, lits) else b
  | _ => b

/-- The double loop over `j["Call"]` and each call's `Witnesses` (source
lines 86–93). -/
def bestWitness (doc : ClingoDoc) : Option (List String) × ℚ × ℕ :=
  doc.calls.foldl (fun b wits => wits.foldl witStep b) witInit

/-- `run_clingo` (source lines 64–95), modelled from the subprocess boundary
on: timeout → `(None, None)`; exit code outside `{0, 10, 20, 30}` →
`(None, None)`; `json.loads` failure → `(None, None)`; otherwise fold the
witnesses and return `(best_atoms, runtime)` if a witness was kept, else
`(None, None)`. -/
def run_clingo (r : ProcOutcome) : Option (List String) × Option ℚ :=
  match r with
  | .timeout => (none, none)
  | .finished rc parsed runtime =>
    if ¬(rc = 0 ∨ rc = 10 ∨ rc = 20 ∨ rc = 30) then (none, none)
    else
      match parsed with
      | none => (none, none)
      | some doc =>
        match (bestWitness doc).1 with
        | some atoms => (some atoms, some runtime)
        | none => (none, none)

/-- A hyperparameter configuration: the dict `dict(zip(GRID, v))` as an
association list in key order. -/
abbrev Config := List (String × ℕ)

/-- The hyperparameter grid (source lines 26–30), in insertion order. -/
def GRID : List (String × List ℕ) :=
  [("maxD", [3, 4]), ("maxE", [2, 3]), ("maxBody", [2])]

/-- `itertools.product` on the list of domains: leftmost factor varies
slowest. -/
def listProduct : List (List ℕ) → List (List ℕ)
  | [] => [[]]
  | xs :: rest => (xs.map fun x => (listProduct rest).map fun t => x :: t).flatten

/-- The enumerated grid: `dict(zip(GRID, v)) for v in itertools.product(*GRID.values())`
(source lines 126–127). -/
def gridConfigs : List Config :=
  (listProduct (GRID.map Prod.snd)).map fun v => (GRID.map Prod.fst).zip v

/-- The per-split running best dict (source lines 123–124):
`{"err": 1.0, "lits": 9999, "consts": None, "atoms": None, "time": None}`. -/
structure Best where
  err : ℚ
  lits : ℕ
  consts : Option Config
  atoms : Option (List String)
  time : Option ℚ
deriving DecidableEq

/-- Initial value of the per-split best dict. -/
def initBest : Best := ⟨1, 9999, none, none, none⟩

/-- One iteration of the grid loop (source lines 126–134): run clingo for
this configuration, re-score the returned atoms, skip if unscored, otherwise
fold with the same strict comparison as the witness level. -/
def splitStep (oracle : Config → ProcOutcome) (b : Best) (consts : Config) : Best :=
  match metricsOpt (run_clingo (oracle consts)).1 with
  | (some err, some lits) =>
    if err < b.err ∨ (err = b.err ∧ lits < b.lits) then
      ⟨err, lits, some consts, (run_clingo (oracle consts)).1, (run_clingo (oracle consts)).2⟩
    else b
  | _ => b

/-- The grid fold of one split, on an arbitrary configuration list. -/
def evalSplitOn (oracle : Config → ProcOutcome) (configs : List Config) : Best :=
  configs.foldl (splitStep oracle) initBest

/-- The grid fold of one split over the declared grid. -/
def evalSplit (oracle : Config → ProcOutcome) : Best :=
  evalSplitOn oracle gridConfigs

/-- Python `x[i], x[j] = x[j], x[i]` on a list (in the shuffle both indices
are in range, so the defensive fallback branch is never taken there). -/
def listSwap (l : List ℕ) (i j : ℕ) : List ℕ :=
  match l.get? i, l.get? j with
  | some a, some b => (l.set i b).set j a
  | _, _ => l

/-- The Fisher–Yates loop of `random.Random(seed).shuffle`:
`for i in reversed(range(1, n)): j = randbelow(i+1); swap x[i] x[j]`.
The seed's pseudo-random stream is abstracted as `stream : ℕ → ℕ`; the draw
`randbelow(i+1)` at loop index `i` is modelled as `stream i % (i+1)`. -/
def fisherYates (stream : ℕ → ℕ) : ℕ → List ℕ → List ℕ
  | 0, l => l
  | k + 1, l => fisherYates stream k (listSwap l (k + 1) (stream (k + 1) % (k + 2)))

/-- `random.Random(seed).shuffle(rows)` on a fresh copy of the row list. -/
def shuffle (stream : ℕ → ℕ) (l : List ℕ) : List ℕ :=
  fisherYates stream (l.length - 1) l

/-- Split construction of the main loop (source lines 115–118):
deep-copy the universe, shuffle it with the seed's stream, cut at
`len(rows) // 2`. -/
def makeSplit (stream : ℕ → ℕ) (rows_all : List ℕ) : List ℕ × List ℕ :=
  let rows := shuffle stream rows_all
  let half := rows.length / 2
  (rows.take half, rows.drop half)

/-- One summary tuple `(split, seed, err, lits, consts, time)` (source lines
145–146), fields typed as the `best` dict holds them. -/
structure SummaryRecord where
  splitNo : ℕ
  seed : ℤ
  err : ℚ
  lits : ℕ
  consts : Option Config
  time : Option ℚ
deriving DecidableEq

/-- `load_rows` (source lines 41–53) on the extracted row ids: the regex scan
of the dataset file is abstracted to its result list; an empty universe is
the fatal `sys.exit` branch. -/
def load_rows (ids : List ℕ) : Option (List ℕ) :=
  if ids = [] then none else some ids

/-- Evaluate one split: build the split from the seed's stream, then fold the
grid.  The external solver is the oracle, a function of the written split and
the configuration (the model and dataset files are fixed). -/
def evalOneSplit (rows_all : List ℕ) (seedStream : ℤ → ℕ → ℕ)
    (oracle : List ℕ × List ℕ → Config → ProcOutcome) (seed : ℤ) : Best :=
  evalSplitOn (oracle (makeSplit (seedStream seed) rows_all)) gridConfigs

/-- The `if not best["atoms"]: continue` guard and the summary append
(source lines 136–146). -/
def summaryOf (idx : ℕ) (seed : ℤ) (b : Best) : Option SummaryRecord :=
  match b.atoms with
  | none => none
  | some _ => some ⟨idx, seed, b.err, b.lits, b.consts, b.time⟩

/-- The main experiment loop (source lines 114–148): one record per
successful split, in `enumerate(seeds, 1)` order. -/
def buildSummary (rows_all : List ℕ) (seedStream : ℤ → ℕ → ℕ)
    (oracle : List ℕ × List ℕ → Config → ProcOutcome) (seeds : List ℤ) :
    List SummaryRecord :=
  seeds.enum.filterMap fun p =>
    summaryOf (p.1 + 1) p.2 (evalOneSplit rows_all seedStream oracle p.2)

/-- Whole-run control flow: `load_rows` exits fatally on an empty universe
(exit code 1, before the loop); an empty summary exits fatally (exit code 1,
source lines 151–152) before the CSV is written; otherwise the summary CSV is
written and the process exits 0.  The result is `(exit code, written CSV
content)`, the CSV modelled as its record rows. -/
def runExperiment (ids : List ℕ) (seedStream : ℤ → ℕ → ℕ)
    (oracle : List ℕ × List ℕ → Config → ProcOutcome) (seeds : List ℤ) :
    ℕ × Option (List SummaryRecord) :=
  match load_rows ids with
  | none => (1, none)
  | some rows_all =>
    if buildSummary rows_all seedStream oracle seeds = [] then (1, none)
    else (0, some (buildSummary rows_all seedStream oracle seeds))

/-- `mean_err` (source line 156): arithmetic mean of the error field over the
summary records. -/
def mean_err (summary : List SummaryRecord) : ℚ :=
  (summary.map SummaryRecord.err).sum / summary.length

/-- Strict lexicographic comparison on `(testError, literalCount)` — the
comparison both selection levels use to replace the running best. -/
def scoreLT (x y : ℚ × ℕ) : Prop := x.1 < y.1 ∨ (x.1 = y.1 ∧ x.2 < y.2)

/-- Reflexive lexicographic order on `(testError, literalCount)`. -/
def scoreLE (x y : ℚ × ℕ) : Prop := x.1 < y.1 ∨ (x.1 = y.1 ∧ x.2 ≤ y.2)

/-! ### Order facts about the score comparison -/

theorem scoreLE_refl (x : ℚ × ℕ) : scoreLE x x := Or.inr ⟨rfl, le_refl _⟩

theorem scoreLT_le {x y : ℚ × ℕ} (h : scoreLT x y) : scoreLE x y := by
  rcases h with h | ⟨h1, h2⟩
  · exact Or.inl h
  · exact Or.inr ⟨h1, le_of_lt h2⟩

theorem scoreLE_trans {x y z : ℚ × ℕ} (h1 : scoreLE x y) (h2 : scoreLE y z) : scoreLE x z := by
  rcases h1 with h1 | ⟨e1, n1⟩ <;> rcases h2 with h2 | ⟨e2, n2⟩
  · exact Or.inl (lt_trans h1 h2)
  · exact Or.inl (e2 ▸ h1)
  · exact Or.inl (e1 ▸ h2)
  · exact Or.inr ⟨e1.trans e2, le_trans n1 n2⟩

theorem scoreLE_of_not_lt {x y : ℚ × ℕ} (h : ¬scoreLT x y) : scoreLE y x := by
  unfold scoreLT at h
  push_neg at h
  rcases lt_trichotomy y.1 x.1 with hl | he | hg
  · exact Or.inl hl
  · exact Or.inr ⟨he, le_of_not_lt fun hn => (h.2 he.symm).not_lt hn⟩
  · exact absurd hg h.1.not_lt

/-! ### Evaluation lemmas for `metricsStep` -/

theorem metricsStep_err {a : String} {v : ℤ} (s : Option ℚ × ℕ)
    (h1 : startsWithL a errTag = true) (h2 : parseIntL (errSlice a) = some v) :
    metricsStep s a = (some ((v : ℚ) / 10000), s.2) := by
  simp [metricsStep, h1, h2]

theorem metricsStep_fst_of_not_err {a : String} (s : Option ℚ × ℕ)
    (h1 : startsWithL a errTag = false) : (metricsStep s a).1 = s.1 := by
  unfold metricsStep
  rw [h1]
  simp only [Bool.false_eq_true, if_false]
  split <;> rfl

theorem metricsStep_body {a : String} (s : Option ℚ × ℕ)
    (h1 : startsWithL a errTag = false)
    (h2 : (startsWithL a defaultBodyTag || startsWithL a exceptionBodyTag) = true) :
    metricsStep s a = (s.1, s.2 + 1) := by
  simp [metricsStep, h1, h2]

theorem foldl_metricsStep_fst {l : List String} (s : Option ℚ × ℕ)
    (h : ∀ a ∈ l, startsWithL a errTag = false) :
    (l.foldl metricsStep s).1 = s.1 := by
  induction l generalizing s with
  | nil => rfl
  | cons a t ih =>
    rw [List.foldl_cons, ih _ fun b hb => h b (List.mem_cons_of_mem a hb)]
    exact metricsStep_fst_of_not_err s (h a (List.mem_cons_self a t))

theorem foldl_metricsStep_replicate (n : ℕ) (s : Option ℚ × ℕ) :
    (List.replicate n "default_body(x)").foldl metricsStep s = (s.1, s.2 + n) := by
  induction n generalizing s with
  | zero => rfl
  | succ m ih =>
    rw [List.replicate_succ, List.foldl_cons,
      metricsStep_body s (by decide) (by decide), ih]
    simp [Nat.add_assoc, Nat.add_comm 1 m]

theorem foldl_metricsStep_err_of_unique {l : List String} {v : ℤ} (s : Option ℚ × ℕ)
    (hall : ∀ b ∈ l, startsWithL b errTag = true → parseIntL (errSlice b) = some v)
    (hex : ∃ b ∈ l, startsWithL b errTag = true) :
    (l.foldl metricsStep s).1 = some ((v : ℚ) / 10000) := by
  induction l generalizing s with
  | nil => obtain ⟨b, hb, _⟩ := hex; exact absurd hb (List.not_mem_nil b)
  | cons a t ih =>
    rw [List.foldl_cons]
    by_cases ht : ∃ b ∈ t, startsWithL b errTag = true
    · exact ih _ (fun b hb => hall b (List.mem_cons_of_mem a hb)) ht
    · obtain ⟨b, hb, hberr⟩ := hex
      rcases List.mem_cons.mp hb with rfl | hbt
      · have := metricsStep_err s hberr (hall b (List.mem_cons_self b t) hberr)
        rw [foldl_metricsStep_fst _ fun c hc => by
          rcases Bool.eq_false_or_eq_true (startsWithL c errTag) with h | h
          · exact absurd ⟨c, hc, h⟩ ht
          · exact h]
        rw [this]
      · exact absurd ⟨b, hbt, hberr⟩ ht

/-- A witness with a parsed error is nonempty. -/
theorem metrics_fst_some_ne_nil {l : List String} {e : ℚ} (h : (metrics l).1 = some e) :
    l ≠ [] := by
  intro hnil
  subst hnil
  simp [metrics] at h

/-- The literal count is present whenever the error is. -/
theorem metrics_snd_some {l : List String} {e : ℚ} (h : (metrics l).1 = some e) :
    ∃ n, (metrics l).2 = some n := by
  cases l with
  | nil => simp [metrics] at h
  | cons a t => exact ⟨_, rfl⟩

/-! ### The witness-selection fold -/

theorem witStep_cases (b : Option (List String) × ℚ × ℕ) (w : List String) :
    witStep b w = b ∨
      ∃ e l, metrics w = (some e, some l) ∧ scoreLT (e, l) b.2 ∧
        witStep b w = (some w, e, l) := by
  unfold witStep
  rcases hm : metrics w with ⟨he, hl⟩
  cases he with
  | none => exact Or.inl rfl
  | some e =>
    cases hl with
    | none => exact Or.inl rfl
    | some l =>
      by_cases hc : e < b.2.1 ∨ (e = b.2.1 ∧ l < b.2.2)
      · exact Or.inr ⟨e, l, rfl, hc, if_pos hc⟩
      · exact Or.inl (if_neg hc)

theorem witStep_isSome {b : Option (List String) × ℚ × ℕ} (w : List String)
    (h : b.1.isSome) : ((witStep b w).1).isSome := by
  rcases witStep_cases b w with heq | ⟨e, l, _, _, heq⟩ <;> rw [heq]
  · exact h
  · rfl

theorem foldl_witStep_isSome {L : List (List String)}
    {b : Option (List String) × ℚ × ℕ} (h : b.1.isSome) :
    ((L.foldl witStep b).1).isSome := by
  induction L generalizing b with
  | nil => exact h
  | cons w t ih => exact ih (witStep_isSome w h)

theorem witStep_key_le (b : Option (List String) × ℚ × ℕ) (w : List String) :
    scoreLE (witStep b w).2 b.2 := by
  rcases witStep_cases b w with heq | ⟨e, l, _, hlt, heq⟩ <;> rw [heq]
  · exact scoreLE_refl _
  · exact scoreLT_le hlt

theorem foldl_witStep_key_le (L : List (List String))
    (b : Option (List String) × ℚ × ℕ) : scoreLE (L.foldl witStep b).2 b.2 := by
  induction L generalizing b with
  | nil => exact scoreLE_refl _
  | cons w t ih =>
    exact scoreLE_trans (ih (witStep b w)) (witStep_key_le b w)

theorem foldl_witStep_min {L : List (List String)} {w : List String} {e : ℚ} {li : ℕ}
    (b : Option (List String) × ℚ × ℕ) (hw : w ∈ L)
    (hm : metrics w = (some e, some li)) :
    scoreLE (L.foldl witStep b).2 (e, li) := by
  induction L generalizing b with
  | nil => exact absurd hw (List.not_mem_nil w)
  | cons a t ih =>
    rw [List.foldl_cons]
    rcases List.mem_cons.mp hw with rfl | hwt
    · by_cases hc : scoreLT (e, li) b.2
      · have : witStep b w = (some w, e, li) := by
          unfold witStep
          rw [hm]
          exact if_pos hc
        rw [this]
        exact foldl_witStep_key_le t (some w, e, li)
      · have : witStep b w = b := by
          unfold witStep
          rw [hm]
          exact if_neg hc
        rw [this]
        exact scoreLE_trans (foldl_witStep_key_le t b) (scoreLE_of_not_lt hc)
    · exact ih (witStep b a) hwt

theorem foldl_witStep_some {L : List (List String)} {w : List String} {e : ℚ} {li : ℕ}
    (b : Option (List String) × ℚ × ℕ) (hw : w ∈ L)
    (hm : metrics w = (some e, some li)) (hlt : scoreLT (e, li) b.2) :
    ((L.foldl witStep b).1).isSome := by
  induction L generalizing b with
  | nil => exact absurd hw (List.not_mem_nil w)
  | cons a t ih =>
    rw [List.foldl_cons]
    rcases List.mem_cons.mp hw with rfl | hwt
    · have : witStep b w = (some w, e, li) := by
        unfold witStep
        rw [hm]
        exact if_pos hlt
      rw [this]
      exact foldl_witStep_isSome rfl
    · rcases witStep_cases b a with heq | ⟨e', l', _, _, heq⟩ <;> rw [heq]
      · exact ih b hwt hlt
      · exact foldl_witStep_isSome rfl

/-- Any atoms held by the running best carry exactly its recorded score. -/
theorem foldl_witStep_inv {L : List (List String)}
    {b : Option (List String) × ℚ × ℕ}
    (hb : ∀ a, b.1 = some a → metrics a = (some b.2.1, some b.2.2)) :
    ∀ a, (L.foldl witStep b).1 = some a →
      metrics a = (some (L.foldl witStep b).2.1, some (L.foldl witStep b).2.2) := by
  induction L generalizing b with
  | nil => exact hb
  | cons w t ih =>
    rw [List.foldl_cons]
    refine ih ?_
    rcases witStep_cases b w with heq | ⟨e, l, hm, _, heq⟩ <;> rw [heq]
    · exact hb
    · intro a ha
      cases ha
      exact hm

theorem bestWitness_eq (doc : ClingoDoc) :
    bestWitness doc = doc.calls.flatten.foldl witStep witInit := by
  rw [bestWitness, List.foldl_flatten]

/-! ### `run_clingo` shape -/

/-- The atoms kept by `bestWitness` carry a full score. -/
theorem bestWitness_scored {doc : ClingoDoc} {a : List String}
    (h : (bestWitness doc).1 = some a) :
    metrics a = (some (bestWitness doc).2.1, some (bestWitness doc).2.2) := by
  rw [bestWitness_eq] at h ⊢
  exact foldl_witStep_inv (fun a ha => by cases ha) a h

theorem run_clingo_shape (r : ProcOutcome) :
    run_clingo r = (none, none) ∨
      ∃ a rc parsed rt, r = .finished rc parsed rt ∧
        run_clingo r = (some a, some rt) ∧ ∃ e l, metrics a = (some e, some l) := by
  cases r with
  | timeout => exact Or.inl rfl
  | finished rc parsed rt =>
    by_cases hc : ¬(rc = 0 ∨ rc = 10 ∨ rc = 20 ∨ rc = 30)
    · exact Or.inl (by simp only [run_clingo, if_pos hc])
    · cases parsed with
      | none => exact Or.inl (by simp only [run_clingo, if_neg hc])
      | some doc =>
        cases h : (bestWitness doc).1 with
        | none =>
          refine Or.inl ?_
          simp only [run_clingo, if_neg hc]
          rw [h]
        | some a =>
          refine Or.inr ⟨a, rc, some doc, rt, rfl, ?_, ?_⟩
          · simp only [run_clingo, if_neg hc]
            rw [h]
          · exact ⟨_, _, bestWitness_scored h⟩

/-- The two components of `run_clingo` are `some` together. -/
theorem run_clingo_paired_isSome {r : ProcOutcome}
    (h : ((run_clingo r).1).isSome) : ((run_clingo r).2).isSome := by
  rcases run_clingo_shape r with heq | ⟨a, rc, parsed, rt, _, heq, _⟩ <;> rw [heq]
  · rw [heq] at h
    exact absurd h (by simp)
  · rfl

/-! ### The grid fold of one split -/

theorem splitStep_cases (oracle : Config → ProcOutcome) (b : Best) (c : Config) :
    splitStep oracle b c = b ∨
      ∃ e l, metricsOpt (run_clingo (oracle c)).1 = (some e, some l) ∧
        scoreLT (e, l) (b.err, b.lits) ∧
        splitStep oracle b c =
          ⟨e, l, some c, (run_clingo (oracle c)).1, (run_clingo (oracle c)).2⟩ := by
  unfold splitStep
  rcases hm : metricsOpt (run_clingo (oracle c)).1 with ⟨he, hl⟩
  cases he with
  | none => exact Or.inl rfl
  | some e =>
    cases hl with
    | none => exact Or.inl rfl
    | some l =>
      by_cases hc : e < b.err ∨ (e = b.err ∧ l < b.lits)
      · exact Or.inr ⟨e, l, rfl, hc, if_pos hc⟩
      · exact Or.inl (if_neg hc)

/-- The time field is set whenever the atoms field is. -/
theorem splitStep_time_inv {oracle : Config → ProcOutcome} {b : Best} (c : Config)
    (hb : b.atoms.isSome → b.time.isSome) :
    (splitStep oracle b c).atoms.isSome → (splitStep oracle b c).time.isSome := by
  rcases splitStep_cases oracle b c with heq | ⟨e, l, hm, _, heq⟩ <;> rw [heq]
  · exact hb
  · intro _
    refine run_clingo_paired_isSome ?_
    cases hres : (run_clingo (oracle c)).1 with
    | none => rw [hres] at hm; exact absurd hm (by simp [metricsOpt])
    | some _ => rfl

theorem foldl_splitStep_time_inv {oracle : Config → ProcOutcome} {b : Best}
    (configs : List Config) (hb : b.atoms.isSome → b.time.isSome) :
    (configs.foldl (splitStep oracle) b).atoms.isSome →
      (configs.foldl (splitStep oracle) b).time.isSome := by
  induction configs generalizing b with
  | nil => exact hb
  | cons c t ih => exact ih (splitStep_time_inv c hb)

/-! ### The shuffle is a permutation -/

theorem perm_cons_set : ∀ (t : List ℕ) (k : ℕ) (a b : ℕ),
    t.get? k = some b → (b :: t.set k a).Perm (a :: t) := by
  intro t
  induction t with
  | nil => intro k a b h; simp at h
  | cons x t' ih =>
    intro k a b h
    cases k with
    | zero =>
      cases h
      exact List.Perm.swap _ _ _
    | succ m =>
      rw [List.get?_cons_succ] at h
      rw [List.set_cons_succ]
      refine List.Perm.trans (List.Perm.swap x b _) ?_
      refine List.Perm.trans (List.Perm.cons x (ih m a b h)) ?_
      exact List.Perm.swap a x t'

theorem set_set_perm : ∀ (l : List ℕ) (i j a b : ℕ),
    l.get? i = some a → l.get? j = some b → ((l.set i b).set j a).Perm l := by
  intro l
  induction l with
  | nil => intro i j a b h; simp at h
  | cons x t ih =>
    intro i j a b hi hj
    cases i with
    | zero =>
      cases hi
      cases j with
      | zero =>
        cases hj
        simp
      | succ k =>
        rw [List.get?_cons_succ] at hj
        rw [List.set_cons_zero, List.set_cons_succ]
        exact perm_cons_set t k _ _ hj
    | succ m =>
      rw [List.get?_cons_succ] at hi
      cases j with
      | zero =>
        cases hj
        rw [List.set_cons_succ, List.set_cons_zero]
        exact perm_cons_set t m _ _ hi
      | succ k =>
        rw [List.get?_cons_succ] at hj
        rw [List.set_cons_succ, List.set_cons_succ]
        exact (ih m k a b hi hj).cons x

theorem listSwap_perm (l : List ℕ) (i j : ℕ) : (listSwap l i j).Perm l := by
  unfold listSwap
  cases hi : l.get? i with
  | none => exact List.Perm.refl l
  | some a =>
    cases hj : l.get? j with
    | none => exact List.Perm.refl l
    | some b => exact set_set_perm l i j a b hi hj

theorem fisherYates_perm (stream : ℕ → ℕ) : ∀ (n : ℕ) (l : List ℕ),
    (fisherYates stream n l).Perm l := by
  intro n
  induction n with
  | zero => exact fun l => List.Perm.refl l
  | succ k ih =>
    intro l
    exact (ih _).trans (listSwap_perm l (k + 1) (stream (k + 1) % (k + 2)))

theorem shuffle_perm (stream : ℕ → ℕ) (l : List ℕ) : (shuffle stream l).Perm l :=
  fisherYates_perm stream (l.length - 1) l

/-! ### Grid enumeration size -/

theorem flatten_map_cons_length (P : List (List ℕ)) :
    ∀ xs : List ℕ, ((xs.map fun x => P.map fun t => x :: t).flatten).length
      = xs.length * P.length := by
  intro xs
  induction xs with
  | nil => simp
  | cons x t ih =>
    rw [List.map_cons, List.flatten_cons, List.length_append, List.length_map, ih,
      List.length_cons, Nat.succ_mul, Nat.add_comm]

theorem listProduct_length (doms : List (List ℕ)) :
    (listProduct doms).length = (doms.map List.length).prod := by
  induction doms with
  | nil => rfl
  | cons xs rest ih =>
    rw [listProduct, flatten_map_cons_length, ih, List.map_cons, List.prod_cons]

/-! ### Summary assembly -/

theorem summaryOf_eq_none_iff (idx : ℕ) (seed : ℤ) (b : Best) :
    summaryOf idx seed b = none ↔ b.atoms = none := by
  cases h : b.atoms <;> simp [summaryOf, h]

theorem filterMap_summary_err (l : List (ℕ × ℤ)) (E : ℕ × ℤ → Best) :
    ((l.filterMap fun p => summaryOf (p.1 + 1) p.2 (E p)).map SummaryRecord.err)
      = ((l.map E).filter fun b => b.atoms.isSome).map Best.err := by
  induction l with
  | nil => rfl
  | cons p t ih =>
    rw [List.map_cons, List.filter_cons]
    cases h : (E p).atoms with
    | none =>
      have hhead : summaryOf (p.1 + 1) p.2 (E p) = none := by simp [summaryOf, h]
      have hb : (E p).atoms.isSome = false := by rw [h]; rfl
      simp only [List.filterMap_cons, hhead, hb, Bool.false_eq_true, if_false]
      exact ih
    | some a =>
      have hhead : summaryOf (p.1 + 1) p.2 (E p) =
          some ⟨p.1 + 1, p.2, (E p).err, (E p).lits, (E p).consts, (E p).time⟩ := by
        simp [summaryOf, h]
      have hb : (E p).atoms.isSome = true := by rw [h]; rfl
      simp only [List.filterMap_cons, hhead, hb, if_true, List.map_cons]
      exact congrArg (List.cons (E p).err) ih

theorem filterMap_summary_length (l : List (ℕ × ℤ)) (E : ℕ × ℤ → Best) :
    (l.filterMap fun p => summaryOf (p.1 + 1) p.2 (E p)).length
      = (l.map E).countP fun b => b.atoms.isSome := by
  induction l with
  | nil => rfl
  | cons p t ih =>
    rw [List.map_cons, List.countP_cons]
    cases h : (E p).atoms with
    | none =>
      have hhead : summaryOf (p.1 + 1) p.2 (E p) = none := by simp [summaryOf, h]
      have hb : (E p).atoms.isSome = false := by rw [h]; rfl
      simp only [List.filterMap_cons, hhead, hb, Bool.false_eq_true, if_false, Nat.add_zero]
      exact ih
    | some a =>
      have hhead : summaryOf (p.1 + 1) p.2 (E p) =
          some ⟨p.1 + 1, p.2, (E p).err, (E p).lits, (E p).consts, (E p).time⟩ := by
        simp [summaryOf, h]
      have hb : (E p).atoms.isSome = true := by rw [h]; rfl
      simp only [List.filterMap_cons, hhead, hb, if_true, List.length_cons]
      exact congrArg (· + 1) ih

theorem buildSummary_eq_nil_iff (rows_all : List ℕ) (seedStream : ℤ → ℕ → ℕ)
    (oracle : List ℕ × List ℕ → Config → ProcOutcome) (seeds : List ℤ) :
    buildSummary rows_all seedStream oracle seeds = [] ↔
      ∀ p ∈ seeds.enum, (evalOneSplit rows_all seedStream oracle p.2).atoms = none := by
  rw [buildSummary, List.filterMap_eq_nil_iff]
  constructor
  · intro h p hp
    exact (summaryOf_eq_none_iff _ _ _).mp (h p hp)
  · intro h p hp
    exact (summaryOf_eq_none_iff _ _ _).mpr (h p hp)

/-! ### Concrete artifacts used by the counterexamples -/

/-- A witness scoring exactly the code's sentinel `(1.0, 10**9)`: error
`10000 / 10000 = 1.0` and `10^9` body literals. -/
def bigWit : List String :=
  "error_test_pp10k(10000)" :: List.replicate (10 ^ 9) "default_body(x)"

/-- A solver result whose only witness is `bigWit`. -/
def bigDoc : ClingoDoc := ⟨[[bigWit]]⟩

theorem metrics_bigWit : metrics bigWit = (some 1, some (10 ^ 9)) := by
  have h1 : metricsStep (none, 0) "error_test_pp10k(10000)" = (some 1, 0) := by
    rw [@metricsStep_err "error_test_pp10k(10000)" 10000 (none, 0) (by decide) (by decide)]
    norm_num
  show ((bigWit.foldl metricsStep (none, 0)).1, some (bigWit.foldl metricsStep (none, 0)).2)
      = (some 1, some (10 ^ 9))
  rw [bigWit, List.foldl_cons, h1, foldl_metricsStep_replicate]
  norm_num

/-! ### Claim theorems -/

/-- A finished invocation with a recognized exit code but no kept witness
returns `(None, None)`. -/
theorem run_clingo_finished_none {rc : ℤ} {doc : ClingoDoc} {rt : ℚ}
    (hrc : rc = 0 ∨ rc = 10 ∨ rc = 20 ∨ rc = 30)
    (hnone : (bestWitness doc).1 = none) :
    run_clingo (.finished rc (some doc) rt) = (none, none) := by
  show (if ¬(rc = 0 ∨ rc = 10 ∨ rc = 20 ∨ rc = 30) then ((none, none) : Option (List String) × Option ℚ)
      else match (bestWitness doc).1 with
        | some atoms => (some atoms, some rt)
        | none => (none, none)) = (none, none)
  rw [if_neg (not_not_intro hrc), hnone]

/-- C1 counterexample: the initial best-so-far sentinel is `(1.0, 10**9)`,
not `(1.0, +∞)` — `bigWit` is a scored witness (error `1.0`, `10^9`
literals), yet for a solver result whose only witness it is, no witness is
selected and `run_clingo` returns `(None, None)`. -/
theorem bestWitness_sentinel_finite :
    (metrics bigWit).1 = some 1 ∧
    (bestWitness bigDoc).1 = none ∧
    run_clingo (.finished 30 (some bigDoc) 1) = (none, none) := by
  have hw : witStep witInit bigWit = witInit := by
    rw [witStep, metrics_bigWit]
    refine if_neg ?_
    intro hc
    rcases hc with hc | ⟨_, hc⟩
    · exact absurd hc (lt_irrefl _)
    · exact absurd hc (lt_irrefl _)
  have hb : bestWitness bigDoc = witInit := by
    rw [bestWitness_eq]
    show ([[bigWit]] : List (List (List String))).flatten.foldl witStep witInit = witInit
    rw [show ([[bigWit]] : List (List (List String))).flatten = [bigWit] by simp,
      List.foldl_cons, List.foldl_nil]
    exact hw
  have hb1 : (bestWitness bigDoc).1 = none := by rw [hb]; rfl
  exact ⟨by rw [metrics_bigWit], hb1,
    run_clingo_finished_none (by norm_num) hb1⟩

/-- C1 (amended): within one solver result the loop iterates all witnesses
across all `Call` groups, keeps strictly lower error then strictly fewer
literals, and ignores unscored witnesses; the sentinel is
`(error = 1.0, literalCount = 10^9)`, so for every result containing a
scored witness lexicographically below the sentinel, that witness or a
better-scoring one is selected. -/
theorem bestWitness_selects_min (doc : ClingoDoc) (w : List String) (e : ℚ) (li : ℕ)
    (hw : w ∈ doc.calls.flatten) (hm : metrics w = (some e, some li))
    (hs : scoreLT (e, li) (1, 10 ^ 9)) :
    ∃ a e' l', (bestWitness doc).1 = some a ∧ metrics a = (some e', some l') ∧
      scoreLE (e', l') (e, li) := by
  rw [bestWitness_eq]
  have hsome := foldl_witStep_some witInit hw hm hs
  obtain ⟨a, ha⟩ := Option.isSome_iff_exists.mp hsome
  have hsc := foldl_witStep_inv (b := witInit) (fun x hx => by cases hx) a ha
  have hmin := foldl_witStep_min (w := w) witInit hw hm
  exact ⟨a, _, _, ha, hsc, hmin⟩

/-- Witness for C1 (amended): a result with the single witness
`error_test_pp10k(500)` (error `1/20`, zero literals) has a selected witness
scoring at most `(1/20, 0)`. -/
theorem bestWitness_selects_min_inst :
    ∃ a e' l', (bestWitness ⟨[[["error_test_pp10k(500)"]]]⟩).1 = some a ∧
      metrics a = (some e', some l') ∧ scoreLE (e', l') (1 / 20, 0) := by
  refine bestWitness_selects_min ⟨[[["error_test_pp10k(500)"]]]⟩
    ["error_test_pp10k(500)"] (1 / 20) 0 (by simp) ?_ ?_
  · show ((List.foldl metricsStep (none, 0) [["error_test_pp10k(500)"]].flatten).1,
      some (List.foldl metricsStep (none, 0) [["error_test_pp10k(500)"]].flatten).2)
      = (some (1 / 20), some 0)
    rw [show ([["error_test_pp10k(500)"]] : List (List String)).flatten
        = ["error_test_pp10k(500)"] by simp]
    rw [List.foldl_cons, List.foldl_nil,
      @metricsStep_err "error_test_pp10k(500)" 500 (none, 0) (by decide) (by decide)]
    norm_num
  · exact Or.inl (by norm_num)

theorem not_scoreLT_of_le {x y : ℚ × ℕ} (h : scoreLE x y) : ¬scoreLT y x := by
  intro hlt
  rcases h with h | ⟨he, hn⟩ <;> rcases hlt with h' | ⟨he', hn'⟩
  · exact absurd h' (lt_asymm h)
  · exact absurd he' (ne_of_gt h)
  · exact absurd h' (he ▸ lt_irrefl _)
  · exact absurd hn' (not_lt_of_le hn)

/-- A finished invocation with a recognized exit code and a kept witness
returns the witness's atoms paired with the measured runtime. -/
theorem run_clingo_finished_some {rc : ℤ} {doc : ClingoDoc} {rt : ℚ} {a : List String}
    (hrc : rc = 0 ∨ rc = 10 ∨ rc = 20 ∨ rc = 30)
    (hsome : (bestWitness doc).1 = some a) :
    run_clingo (.finished rc (some doc) rt) = (some a, some rt) := by
  show (if ¬(rc = 0 ∨ rc = 10 ∨ rc = 20 ∨ rc = 30)
      then ((none, none) : Option (List String) × Option ℚ)
      else match (bestWitness doc).1 with
        | some atoms => (some atoms, some rt)
        | none => (none, none)) = (some a, some rt)
  rw [if_neg (not_not_intro hrc), hsome]

/-- A result with exactly one witness folds to one `witStep`. -/
theorem bestWitness_singleton (w : List String) :
    bestWitness ⟨[[w]]⟩ = witStep witInit w := by
  rw [bestWitness_eq]
  show ([[w]] : List (List (List String))).flatten.foldl witStep witInit = witStep witInit w
  rw [show ([[w]] : List (List (List String))).flatten = [w] by simp,
    List.foldl_cons, List.foldl_nil]

/-- The score of a witness made of one `error_test_pp10k(10000)` atom and
`n` `default_body(x)` atoms: error `1.0` and `n` literals. -/
theorem metrics_errHead_replicate (n : ℕ) :
    metrics ("error_test_pp10k(10000)" :: List.replicate n "default_body(x)")
      = (some 1, some n) := by
  have h1 : metricsStep (none, 0) "error_test_pp10k(10000)" = (some 1, 0) := by
    rw [@metricsStep_err "error_test_pp10k(10000)" 10000 (none, 0) (by decide) (by decide)]
    norm_num
  show ((("error_test_pp10k(10000)" :: List.replicate n "default_body(x)").foldl
      metricsStep (none, 0)).1,
    some (("error_test_pp10k(10000)" :: List.replicate n "default_body(x)").foldl
      metricsStep (none, 0)).2) = (some 1, some n)
  rw [List.foldl_cons, h1, foldl_metricsStep_replicate]
  norm_num

/-- `splitStep` once the re-scored metrics of the returned atoms are known. -/
theorem splitStep_of_metrics {oracle : Config → ProcOutcome} {b : Best} {c : Config}
    {e : ℚ} {l : ℕ} (hm : metricsOpt (run_clingo (oracle c)).1 = (some e, some l)) :
    splitStep oracle b c =
      if e < b.err ∨ (e = b.err ∧ l < b.lits) then
        ⟨e, l, some c, (run_clingo (oracle c)).1, (run_clingo (oracle c)).2⟩
      else b := by
  rw [splitStep, hm]

/-- A witness with error `1.0` and `9999` literals: beats the witness-level
sentinel `(1.0, 10^9)` but ties the configuration-level sentinel
`(1.0, 9999)`. -/
def wit9999 : List String :=
  "error_test_pp10k(10000)" :: List.replicate 9999 "default_body(x)"

/-- A witness with error `1.0` and `10000` literals. -/
def wit10000 : List String :=
  "error_test_pp10k(10000)" :: List.replicate 10000 "default_body(x)"

/-- First grid-order configuration of the counterexample oracle. -/
def cfgA : Config := [("maxD", 3), ("maxE", 2), ("maxBody", 2)]

/-- Second grid-order configuration of the counterexample oracle. -/
def cfgB : Config := [("maxD", 3), ("maxE", 3), ("maxBody", 2)]

/-- An oracle answering `cfgA` with the `wit9999` result and every other
configuration with the `wit10000` result. -/
def ceOracle : Config → ProcOutcome := fun c =>
  if c = cfgA then .finished 30 (some ⟨[[wit9999]]⟩) 1
  else .finished 30 (some ⟨[[wit10000]]⟩) 1

theorem cfgB_ne_cfgA : cfgB ≠ cfgA := by
  intro h
  have h2 := congrArg (fun c : Config => c.map Prod.snd) h
  simp [cfgA, cfgB] at h2

/-- C2 counterexample: both configurations are scored — equal test error
`1.0`, with `cfgA` at strictly fewer literals (`9999 < 10000`) — yet the
split-level fold selects neither: the configuration-level sentinel is
`(1.0, 9999)`, so neither scored configuration ever replaces it and the
split records no candidate. -/
theorem evalSplit_sentinel_blocks_tie :
    run_clingo (ceOracle cfgA) = (some wit9999, some 1) ∧
    metrics wit9999 = (some 1, some 9999) ∧
    run_clingo (ceOracle cfgB) = (some wit10000, some 1) ∧
    metrics wit10000 = (some 1, some 10000) ∧
    (9999 : ℕ) < 10000 ∧
    (evalSplitOn ceOracle [cfgA, cfgB]).consts = none ∧
    (evalSplitOn ceOracle [cfgA, cfgB]).atoms = none := by
  have hm9999 : metrics wit9999 = (some 1, some 9999) := metrics_errHead_replicate 9999
  have hm10000 : metrics wit10000 = (some 1, some 10000) := metrics_errHead_replicate 10000
  have hOA : ceOracle cfgA = .finished 30 (some ⟨[[wit9999]]⟩) 1 := by
    rw [ceOracle]
    exact if_pos rfl
  have hOB : ceOracle cfgB = .finished 30 (some ⟨[[wit10000]]⟩) 1 := by
    rw [ceOracle]
    exact if_neg cfgB_ne_cfgA
  have hbwA : (bestWitness ⟨[[wit9999]]⟩).1 = some wit9999 := by
    rw [bestWitness_singleton, witStep, hm9999]
    show (if (1 : ℚ) < witInit.2.1 ∨ ((1 : ℚ) = witInit.2.1 ∧ (9999 : ℕ) < witInit.2.2)
        then (some wit9999, (1 : ℚ), (9999 : ℕ)) else witInit).1 = some wit9999
    rw [if_pos (Or.inr ⟨rfl, by norm_num [witInit]⟩)]
  have hbwB : (bestWitness ⟨[[wit10000]]⟩).1 = some wit10000 := by
    rw [bestWitness_singleton, witStep, hm10000]
    show (if (1 : ℚ) < witInit.2.1 ∨ ((1 : ℚ) = witInit.2.1 ∧ (10000 : ℕ) < witInit.2.2)
        then (some wit10000, (1 : ℚ), (10000 : ℕ)) else witInit).1 = some wit10000
    rw [if_pos (Or.inr ⟨rfl, by norm_num [witInit]⟩)]
  have hA : run_clingo (ceOracle cfgA) = (some wit9999, some 1) := by
    rw [hOA]
    exact run_clingo_finished_some (by norm_num) hbwA
  have hB : run_clingo (ceOracle cfgB) = (some wit10000, some 1) := by
    rw [hOB]
    exact run_clingo_finished_some (by norm_num) hbwB
  have hmoA : metricsOpt (run_clingo (ceOracle cfgA)).1 = (some 1, some 9999) := by
    rw [hA]
    exact hm9999
  have hmoB : metricsOpt (run_clingo (ceOracle cfgB)).1 = (some 1, some 10000) := by
    rw [hB]
    exact hm10000
  have s1 : splitStep ceOracle initBest cfgA = initBest := by
    rw [splitStep_of_metrics hmoA]
    refine if_neg ?_
    intro hc
    rcases hc with hc | ⟨_, hc⟩
    · exact absurd hc (lt_irrefl _)
    · exact absurd hc (by norm_num [initBest])
  have s2 : splitStep ceOracle initBest cfgB = initBest := by
    rw [splitStep_of_metrics hmoB]
    refine if_neg ?_
    intro hc
    rcases hc with hc | ⟨_, hc⟩
    · exact absurd hc (lt_irrefl _)
    · exact absurd hc (by norm_num [initBest])
  have hfold : evalSplitOn ceOracle [cfgA, cfgB] = initBest := by
    rw [evalSplitOn, List.foldl_cons, s1, List.foldl_cons, s2, List.foldl_nil]
  exact ⟨hA, hm9999, hB, hm10000, by norm_num, by rw [hfold]; rfl, by rw [hfold]; rfl⟩

/-- C2 (amended): within one split the configuration fold uses the same
strict lexicographic comparison as witness selection, but against the
sentinel `(err = 1.0, lits = 9999)`: for every pair of scored configurations
that both beat that sentinel, the one with lower test error wins, ties are
broken by lower literal count, and when both components tie the first-seen
configuration in grid order is kept. -/
theorem evalSplit_pair_order (oracle : Config → ProcOutcome) (c1 c2 : Config)
    (a1 a2 : List String) (t1 t2 : Option ℚ) (e1 e2 : ℚ) (l1 l2 : ℕ)
    (h1 : run_clingo (oracle c1) = (some a1, t1)) (hm1 : metrics a1 = (some e1, some l1))
    (h2 : run_clingo (oracle c2) = (some a2, t2)) (hm2 : metrics a2 = (some e2, some l2))
    (hs1 : scoreLT (e1, l1) (1, 9999)) (_hs2 : scoreLT (e2, l2) (1, 9999)) :
    (scoreLE (e1, l1) (e2, l2) → (evalSplitOn oracle [c1, c2]).consts = some c1) ∧
    (scoreLT (e2, l2) (e1, l1) → (evalSplitOn oracle [c1, c2]).consts = some c2) := by
  have hmo1 : metricsOpt (run_clingo (oracle c1)).1 = (some e1, some l1) := by
    rw [h1]
    exact hm1
  have hmo2 : metricsOpt (run_clingo (oracle c2)).1 = (some e2, some l2) := by
    rw [h2]
    exact hm2
  have s1 : splitStep oracle initBest c1
      = ⟨e1, l1, some c1, (run_clingo (oracle c1)).1, (run_clingo (oracle c1)).2⟩ := by
    rw [splitStep_of_metrics hmo1]
    exact if_pos hs1
  have hfold : evalSplitOn oracle [c1, c2]
      = splitStep oracle ⟨e1, l1, some c1, (run_clingo (oracle c1)).1,
          (run_clingo (oracle c1)).2⟩ c2 := by
    rw [evalSplitOn, List.foldl_cons, s1, List.foldl_cons, List.foldl_nil]
  constructor
  · intro hle
    have s2 : splitStep oracle (⟨e1, l1, some c1, (run_clingo (oracle c1)).1,
        (run_clingo (oracle c1)).2⟩ : Best) c2
        = ⟨e1, l1, some c1, (run_clingo (oracle c1)).1, (run_clingo (oracle c1)).2⟩ := by
      rw [splitStep_of_metrics hmo2]
      exact if_neg (not_scoreLT_of_le hle)
    rw [hfold, s2]
  · intro hlt
    have s2 : splitStep oracle (⟨e1, l1, some c1, (run_clingo (oracle c1)).1,
        (run_clingo (oracle c1)).2⟩ : Best) c2
        = ⟨e2, l2, some c2, (run_clingo (oracle c2)).1, (run_clingo (oracle c2)).2⟩ := by
      rw [splitStep_of_metrics hmo2]
      exact if_pos hlt
    rw [hfold, s2]

/-- Witness for C2 (amended): with a constant oracle answering every
configuration with the single witness `error_test_pp10k(500)`, the
first-seen configuration is kept on a full tie. -/
theorem evalSplit_pair_order_inst :
    (evalSplitOn (fun _ => .finished 30 (some ⟨[[["error_test_pp10k(500)"]]]⟩) 2)
      [cfgA, cfgB]).consts = some cfgA := by
  have hm : metrics ["error_test_pp10k(500)"] = (some (1 / 20), some 0) := by
    show ((List.foldl metricsStep (none, 0) ["error_test_pp10k(500)"]).1,
      some (List.foldl metricsStep (none, 0) ["error_test_pp10k(500)"]).2)
      = (some (1 / 20), some 0)
    rw [List.foldl_cons, List.foldl_nil,
      @metricsStep_err "error_test_pp10k(500)" 500 (none, 0) (by decide) (by decide)]
    norm_num
  have hbw : (bestWitness ⟨[[["error_test_pp10k(500)"]]]⟩).1 = some ["error_test_pp10k(500)"] := by
    rw [bestWitness_singleton, witStep, hm]
    show (if (1 / 20 : ℚ) < witInit.2.1 ∨ ((1 / 20 : ℚ) = witInit.2.1 ∧ (0 : ℕ) < witInit.2.2)
        then (some ["error_test_pp10k(500)"], (1 / 20 : ℚ), (0 : ℕ)) else witInit).1
        = some ["error_test_pp10k(500)"]
    rw [if_pos (Or.inl (by norm_num [witInit]))]
  have hrun : run_clingo ((fun _ : Config => ProcOutcome.finished 30
      (some ⟨[[["error_test_pp10k(500)"]]]⟩) 2) cfgA)
      = (some ["error_test_pp10k(500)"], some 2) :=
    run_clingo_finished_some (by norm_num) hbw
  have h := evalSplit_pair_order
    (fun _ => .finished 30 (some ⟨[[["error_test_pp10k(500)"]]]⟩) 2) cfgA cfgB
    ["error_test_pp10k(500)"] ["error_test_pp10k(500)"] (some 2) (some 2)
    (1 / 20) (1 / 20) 0 0 hrun hm hrun hm
    (Or.inl (by norm_num)) (Or.inl (by norm_num))
  exact h.1 (scoreLE_refl _)

/-- C5 counterexample: the atom `error_test_pp10k(20000)` parses to test
error `20000 / 10000 = 2`, which is not a fraction in `[0, 1]`. -/
theorem metrics_err_out_of_range :
    (metrics ["error_test_pp10k(20000)"]).1 = some ((20000 : ℚ) / 10000) ∧
    ¬(0 ≤ (20000 : ℚ) / 10000 ∧ (20000 : ℚ) / 10000 ≤ 1) := by
  constructor
  · show (List.foldl metricsStep (none, 0) ["error_test_pp10k(20000)"]).1
      = some ((20000 : ℚ) / 10000)
    rw [List.foldl_cons, List.foldl_nil,
      @metricsStep_err "error_test_pp10k(20000)" 20000 (none, 0) (by decide) (by decide)]
    norm_num
  · norm_num

/-- C5 (amended): for every witness whose error atoms all read
`error_test_pp10k(v)`, the parsed test error equals `v / 10000`; that value
lies in `[0, 1]` exactly when `0 ≤ v ≤ 10000` (the code performs no range
check). -/
theorem metrics_err_value (atoms : List String) (v : ℤ)
    (hall : ∀ b ∈ atoms, startsWithL b errTag = true → parseIntL (errSlice b) = some v)
    (hex : ∃ b ∈ atoms, startsWithL b errTag = true) :
    (metrics atoms).1 = some ((v : ℚ) / 10000) ∧
    (0 ≤ (v : ℚ) / 10000 ∧ (v : ℚ) / 10000 ≤ 1 ↔ 0 ≤ v ∧ v ≤ 10000) := by
  constructor
  · have hne : atoms ≠ [] := by
      obtain ⟨b, hb, _⟩ := hex
      intro hnil
      subst hnil
      exact absurd hb (List.not_mem_nil b)
    cases atoms with
    | nil => exact absurd rfl hne
    | cons a t => exact foldl_metricsStep_err_of_unique _ hall hex
  · constructor
    · rintro ⟨h1, h2⟩
      rw [le_div_iff (by norm_num : (0 : ℚ) < 10000), zero_mul] at h1
      rw [div_le_one (by norm_num : (0 : ℚ) < 10000)] at h2
      exact ⟨by exact_mod_cast h1, by exact_mod_cast h2⟩
    · rintro ⟨h1, h2⟩
      constructor
      · rw [le_div_iff (by norm_num : (0 : ℚ) < 10000), zero_mul]
        exact_mod_cast h1
      · rw [div_le_one (by norm_num : (0 : ℚ) < 10000)]
        exact_mod_cast h2

/-- Witness for C5 (amended): the witness `[error_test_pp10k(700)]` parses to
test error `700 / 10000`, which lies in `[0, 1]` since `0 ≤ 700 ≤ 10000`. -/
theorem metrics_err_value_inst :
    (metrics ["error_test_pp10k(700)"]).1 = some (((700 : ℤ) : ℚ) / 10000) ∧
    (0 ≤ ((700 : ℤ) : ℚ) / 10000 ∧ ((700 : ℤ) : ℚ) / 10000 ≤ 1 ↔
      0 ≤ (700 : ℤ) ∧ (700 : ℤ) ≤ 10000) :=
  metrics_err_value ["error_test_pp10k(700)"] 700 (by decide) (by decide)

/-- C3: for every non-empty row universe with distinct ids and every seed
stream, the generated split has `|train| = ⌊|U|/2⌋`, `|test| = |U| - |train|`,
`train` and `test` are disjoint, and their union as a set equals the
universe. -/
theorem makeSplit_partition (stream : ℕ → ℕ) (U : List ℕ)
    (_hne : U ≠ []) (hnd : U.Nodup) :
    (makeSplit stream U).1.length = U.length / 2 ∧
    (makeSplit stream U).2.length = U.length - U.length / 2 ∧
    (∀ x, ¬(x ∈ (makeSplit stream U).1 ∧ x ∈ (makeSplit stream U).2)) ∧
    (∀ x, x ∈ (makeSplit stream U).1 ∨ x ∈ (makeSplit stream U).2 ↔ x ∈ U) := by
  have hp := shuffle_perm stream U
  have hlen : (shuffle stream U).length = U.length := hp.length_eq
  have hsplit : makeSplit stream U =
      (Prod.mk ((shuffle stream U).take ((shuffle stream U).length / 2))
        ((shuffle stream U).drop ((shuffle stream U).length / 2))) := rfl
  have hnds : (shuffle stream U).Nodup := (hp.nodup_iff).mpr hnd
  have happ := List.take_append_drop ((shuffle stream U).length / 2) (shuffle stream U)
  have hdisj : ((shuffle stream U).take ((shuffle stream U).length / 2)).Disjoint
      ((shuffle stream U).drop ((shuffle stream U).length / 2)) := by
    have := List.nodup_append.mp (happ.symm ▸ hnds)
    exact this.2.2
  refine ⟨?_, ?_, ?_, ?_⟩
  · rw [hsplit]
    simp only [List.length_take, hlen]
    exact Nat.min_eq_left (Nat.div_le_self _ _)
  · rw [hsplit]
    simp only [List.length_drop, hlen]
  · intro x hx
    rw [hsplit] at hx
    exact hdisj hx.1 hx.2
  · intro x
    rw [hsplit]
    constructor
    · intro hx
      have : x ∈ shuffle stream U := by
        rw [← happ]
        exact List.mem_append.mpr hx
      exact hp.mem_iff.mp this
    · intro hx
      have : x ∈ shuffle stream U := hp.mem_iff.mpr hx
      rw [← happ] at this
      exact List.mem_append.mp this

/-- Witness for C3: at the universe `[1, 2, 3, 4, 5]` and the constant-zero
stream, the split has 2 train rows and 3 test rows. -/
theorem makeSplit_partition_inst :
    (makeSplit (fun _ => 0) [1, 2, 3, 4, 5]).1.length = 2 ∧
    (makeSplit (fun _ => 0) [1, 2, 3, 4, 5]).2.length = 3 :=
  ⟨(makeSplit_partition (fun _ => 0) [1, 2, 3, 4, 5] (by decide) (by decide)).1,
   (makeSplit_partition (fun _ => 0) [1, 2, 3, 4, 5] (by decide) (by decide)).2.1⟩

/-- C4: a witness with no `error_test_pp10k(` atom has no parsed error,
whatever its literal count, and the witness-selection step ignores it. -/
theorem metrics_no_err_atom (atoms : List String)
    (h : ∀ a ∈ atoms, startsWithL a errTag = false) :
    (metrics atoms).1 = none ∧ ∀ b, witStep b atoms = b := by
  have hfst : (metrics atoms).1 = none := by
    cases atoms with
    | nil => rfl
    | cons a t => exact foldl_metricsStep_fst _ h
  refine ⟨hfst, fun b => ?_⟩
  rcases witStep_cases b atoms with heq | ⟨e, l, hm, _, _⟩
  · exact heq
  · rw [hm] at hfst
    exact absurd hfst (by simp)

/-- Witness for C4: a two-literal witness with no error atom is unscored and
leaves the initial best-witness state unchanged. -/
theorem metrics_no_err_atom_inst :
    (metrics ["default_body(p)", "exception_body(q)"]).1 = none ∧
    witStep witInit ["default_body(p)", "exception_body(q)"] = witInit := by
  have h := metrics_no_err_atom ["default_body(p)", "exception_body(q)"] (by decide)
  exact ⟨h.1, h.2 witInit⟩

/-- C8: `listProduct` enumerates exactly the product of the domain sizes; the
declared grid yields the four configurations below, each a distinct
assignment of every hyperparameter name, in a fixed deterministic order. -/
theorem gridConfigs_enumeration :
    (∀ doms : List (List ℕ), (listProduct doms).length = (doms.map List.length).prod) ∧
    gridConfigs.length = 4 ∧ gridConfigs.Nodup ∧
    gridConfigs =
      [[("maxD", 3), ("maxE", 2), ("maxBody", 2)],
       [("maxD", 3), ("maxE", 3), ("maxBody", 2)],
       [("maxD", 4), ("maxE", 2), ("maxBody", 2)],
       [("maxD", 4), ("maxE", 3), ("maxBody", 2)]] := by
  refine ⟨listProduct_length, rfl, ?_, rfl⟩
  refine List.Nodup.of_map (fun c : Config => c.map Prod.snd) ?_
  have : gridConfigs.map (fun c : Config => c.map Prod.snd)
      = [[3, 2, 2], [3, 3, 2], [4, 2, 2], [4, 3, 2]] := rfl
  rw [this]
  decide

/-- C6: every individually failing solver invocation — wall-clock timeout, an
exit code outside `{0, 10, 20, 30}`, or stdout that fails to parse — yields no
usable result for that configuration attempt only: `run_clingo` returns
`(None, None)` and the grid fold continues with the next configuration, the
running best unchanged. -/
theorem run_clingo_failure_skip (oracle : Config → ProcOutcome) (b : Best)
    (cfg : Config) (rest : List Config) (rc : ℤ) (out : Option ClingoDoc) (rt : ℚ)
    (h : oracle cfg = .timeout ∨
      (oracle cfg = .finished rc out rt ∧
        (¬(rc = 0 ∨ rc = 10 ∨ rc = 20 ∨ rc = 30) ∨ out = none))) :
    run_clingo (oracle cfg) = (none, none) ∧
    (cfg :: rest).foldl (splitStep oracle) b = rest.foldl (splitStep oracle) b := by
  have hrun : run_clingo (oracle cfg) = (none, none) := by
    rcases h with h | ⟨h, hbad⟩
    · rw [h]
      rfl
    · rw [h]
      rcases hbad with hbad | rfl
      · cases out with
        | none =>
          show (if ¬(rc = 0 ∨ rc = 10 ∨ rc = 20 ∨ rc = 30)
              then ((none, none) : Option (List String) × Option ℚ)
              else (none, none)) = (none, none)
          rw [if_pos hbad]
        | some doc =>
          show (if ¬(rc = 0 ∨ rc = 10 ∨ rc = 20 ∨ rc = 30)
              then ((none, none) : Option (List String) × Option ℚ)
              else match (bestWitness doc).1 with
                | some atoms => (some atoms, some rt)
                | none => (none, none)) = (none, none)
          rw [if_pos hbad]
      · show (if ¬(rc = 0 ∨ rc = 10 ∨ rc = 20 ∨ rc = 30)
            then ((none, none) : Option (List String) × Option ℚ)
            else (none, none)) = (none, none)
        by_cases hc : ¬(rc = 0 ∨ rc = 10 ∨ rc = 20 ∨ rc = 30)
        · rw [if_pos hc]
        · rw [if_neg hc]
  have hstep : splitStep oracle b cfg = b := by
    rw [splitStep, hrun]
    rfl
  refine ⟨hrun, ?_⟩
  rw [List.foldl_cons, hstep]

/-- Witness for C6: with an oracle that always times out, the invoker returns
`(None, None)` and folding one configuration is folding none. -/
theorem run_clingo_failure_skip_inst :
    run_clingo ProcOutcome.timeout = (none, none) ∧
    [([] : Config)].foldl (splitStep fun _ => ProcOutcome.timeout) initBest
      = ([] : List Config).foldl (splitStep fun _ => ProcOutcome.timeout) initBest :=
  run_clingo_failure_skip (fun _ => ProcOutcome.timeout) initBest [] [] 1 none 0 (Or.inl rfl)

/-- C7: the run exits non-zero exactly when the dataset yields zero rows or
when no split produces a candidate, and the summary CSV is written exactly
when the run exits 0 (in particular, no CSV when every configuration of
every split fails). -/
theorem runExperiment_exit_behavior (ids : List ℕ) (seedStream : ℤ → ℕ → ℕ)
    (oracle : List ℕ × List ℕ → Config → ProcOutcome) (seeds : List ℤ) :
    ((runExperiment ids seedStream oracle seeds).1 ≠ 0 ↔
      ids = [] ∨ ∀ p ∈ seeds.enum, (evalOneSplit ids seedStream oracle p.2).atoms = none) ∧
    ((runExperiment ids seedStream oracle seeds).2 = none ↔
      (runExperiment ids seedStream oracle seeds).1 ≠ 0) := by
  by_cases hids : ids = []
  · subst hids
    have hre : runExperiment [] seedStream oracle seeds = (1, none) := rfl
    rw [hre]
    exact ⟨⟨fun _ => Or.inl rfl, fun _ => one_ne_zero⟩, ⟨fun _ => one_ne_zero, fun _ => rfl⟩⟩
  · have hl : load_rows ids = some ids := by
      rw [load_rows, if_neg hids]
    have hre : runExperiment ids seedStream oracle seeds
        = if buildSummary ids seedStream oracle seeds = [] then (1, none)
          else (0, some (buildSummary ids seedStream oracle seeds)) := by
      rw [runExperiment, hl]
    by_cases hsum : buildSummary ids seedStream oracle seeds = []
    · rw [hre, if_pos hsum]
      refine ⟨⟨fun _ => Or.inr ?_, fun _ => one_ne_zero⟩,
        ⟨fun _ => one_ne_zero, fun _ => rfl⟩⟩
      exact (buildSummary_eq_nil_iff ids seedStream oracle seeds).mp hsum
    · rw [hre, if_neg hsum]
      constructor
      · constructor
        · intro habs
          exact absurd rfl habs
        · intro habs
          rcases habs with habs | habs
          · exact absurd habs hids
          · exact absurd ((buildSummary_eq_nil_iff ids seedStream oracle seeds).mpr habs) hsum
      · constructor
        · intro habs
          exact absurd habs (by simp)
        · intro habs
          exact absurd rfl habs

/-- Every configuration list folds to the initial best when the solver always
times out. -/
theorem foldl_splitStep_timeout (configs : List Config) (b : Best) :
    configs.foldl (splitStep fun _ => ProcOutcome.timeout) b = b := by
  induction configs generalizing b with
  | nil => rfl
  | cons c t ih =>
    rw [List.foldl_cons, show splitStep (fun _ => ProcOutcome.timeout) b c = b from rfl]
    exact ih _

/-- Witness for C7: one row, one seed, a solver that always times out — the
run exits non-zero. -/
theorem runExperiment_exit_behavior_inst :
    (runExperiment [1] (fun _ _ => 0) (fun _ _ => ProcOutcome.timeout) [0]).1 ≠ 0 :=
  (runExperiment_exit_behavior [1] (fun _ _ => 0) (fun _ _ => ProcOutcome.timeout) [0]).1.mpr
    (Or.inr (by
      intro p _hp
      show (evalSplitOn (fun _ => ProcOutcome.timeout) gridConfigs).atoms = none
      rw [evalSplitOn, foldl_splitStep_timeout]
      rfl))

/-- C9: the reported mean error equals the arithmetic mean of the error field
over exactly the successful summary records — splits producing no candidate
contribute to neither the numerator nor the denominator. -/
theorem mean_err_successful_only (rows_all : List ℕ) (seedStream : ℤ → ℕ → ℕ)
    (oracle : List ℕ × List ℕ → Config → ProcOutcome) (seeds : List ℤ) :
    mean_err (buildSummary rows_all seedStream oracle seeds)
      = (((seeds.enum.map fun p => evalOneSplit rows_all seedStream oracle p.2).filter
            fun b => b.atoms.isSome).map Best.err).sum
        / ((seeds.enum.map fun p => evalOneSplit rows_all seedStream oracle p.2).countP
            fun b => b.atoms.isSome) := by
  rw [mean_err, buildSummary,
    filterMap_summary_err seeds.enum (fun p => evalOneSplit rows_all seedStream oracle p.2),
    filterMap_summary_length seeds.enum (fun p => evalOneSplit rows_all seedStream oracle p.2)]

/-- C10: `run_clingo` returns its two components paired — `(None, None)` on
any failure or unscored result, otherwise a nonempty atom list together with
the measured runtime — and consequently every recorded summary record has a
defined runtime. -/
theorem run_clingo_paired_runtime :
    (∀ r : ProcOutcome, run_clingo r = (none, none) ∨
      ∃ a rt, run_clingo r = (some a, some rt) ∧ a ≠ []) ∧
    (∀ (rows_all : List ℕ) (seedStream : ℤ → ℕ → ℕ)
      (oracle : List ℕ × List ℕ → Config → ProcOutcome) (seeds : List ℤ)
      (sr : SummaryRecord), sr ∈ buildSummary rows_all seedStream oracle seeds →
        sr.time.isSome) := by
  constructor
  · intro r
    rcases run_clingo_shape r with heq | ⟨a, rc, parsed, rt, _, heq, e, l, hm⟩
    · exact Or.inl heq
    · refine Or.inr ⟨a, rt, heq, ?_⟩
      exact metrics_fst_some_ne_nil (show (metrics a).1 = some e by rw [hm])
  · intro rows_all seedStream oracle seeds sr hsr
    obtain ⟨p, _hp, hsome⟩ := List.mem_filterMap.mp hsr
    rw [summaryOf] at hsome
    cases h : (evalOneSplit rows_all seedStream oracle p.2).atoms with
    | none =>
      rw [h] at hsome
      exact absurd hsome (by simp)
    | some a =>
      rw [h] at hsome
      have hsr2 := Option.some.inj hsome
      have htime : sr.time = (evalOneSplit rows_all seedStream oracle p.2).time := by
        rw [← hsr2]
      rw [htime]
      refine foldl_splitStep_time_inv gridConfigs (fun habs => absurd habs (by simp [initBest])) ?_
      show (evalOneSplit rows_all seedStream oracle p.2).atoms.isSome
      rw [h]
      rfl

/-- The concrete successful witness atoms, result document and outcome used
to instantiate C10. -/
def okWit : List String := ["error_test_pp10k(500)"]

/-- A solver result whose only witness is `okWit`. -/
def okDoc : ClingoDoc := ⟨[[okWit]]⟩

/-- A finished invocation that parsed to `okDoc` in 2 seconds. -/
def okOutcome : ProcOutcome := .finished 30 (some okDoc) 2

theorem metrics_okWit : metrics okWit = (some (1 / 20), some 0) := by
  show ((List.foldl metricsStep (none, 0) okWit).1,
    some (List.foldl metricsStep (none, 0) okWit).2) = (some (1 / 20), some 0)
  rw [okWit, List.foldl_cons, List.foldl_nil,
    @metricsStep_err "error_test_pp10k(500)" 500 (none, 0) (by decide) (by decide)]
  norm_num

theorem bestWitness_okDoc : (bestWitness okDoc).1 = some okWit := by
  rw [okDoc, bestWitness_singleton, witStep, metrics_okWit]
  show (if (1 / 20 : ℚ) < witInit.2.1 ∨ ((1 / 20 : ℚ) = witInit.2.1 ∧ (0 : ℕ) < witInit.2.2)
      then (some okWit, (1 / 20 : ℚ), (0 : ℕ)) else witInit).1 = some okWit
  rw [if_pos (Or.inl (by norm_num [witInit]))]

theorem run_clingo_okOutcome : run_clingo okOutcome = (some okWit, some 2) :=
  run_clingo_finished_some (by norm_num) bestWitness_okDoc

/-- Witness for C10: a run with one row, one seed and a solver that always
returns `okDoc` records exactly one summary row, whose runtime is defined. -/
theorem run_clingo_paired_runtime_inst :
    (run_clingo ProcOutcome.timeout = (none, none) ∨
      ∃ a rt, run_clingo ProcOutcome.timeout = (some a, some rt) ∧ a ≠ []) ∧
    (⟨1, 0, 1 / 20, 0, some cfgA, some 2⟩ : SummaryRecord).time.isSome := by
  have hmo : ∀ c : Config,
      metricsOpt (run_clingo ((fun _ : Config => okOutcome) c)).1 = (some (1 / 20), some 0) := by
    intro c
    rw [show run_clingo ((fun _ : Config => okOutcome) c) = (some okWit, some 2)
      from run_clingo_okOutcome]
    exact metrics_okWit
  have hupd : splitStep (fun _ : Config => okOutcome) initBest cfgA
      = ⟨1 / 20, 0, some cfgA, some okWit, some 2⟩ := by
    rw [splitStep_of_metrics (hmo cfgA), if_pos (Or.inl (by norm_num [initBest]))]
    rw [show run_clingo ((fun _ : Config => okOutcome) cfgA) = (some okWit, some 2)
      from run_clingo_okOutcome]
  have hskip : ∀ c : Config, splitStep (fun _ : Config => okOutcome)
      (⟨1 / 20, 0, some cfgA, some okWit, some 2⟩ : Best) c
      = ⟨1 / 20, 0, some cfgA, some okWit, some 2⟩ := by
    intro c
    rw [splitStep_of_metrics (hmo c)]
    refine if_neg ?_
    intro hc
    rcases hc with hc | ⟨_, hc⟩
    · exact absurd hc (lt_irrefl _)
    · exact absurd hc (lt_irrefl _)
  have heval : evalOneSplit [1] (fun _ _ => 0) (fun _ _ => okOutcome) 0
      = ⟨1 / 20, 0, some cfgA, some okWit, some 2⟩ := by
    show evalSplitOn (fun _ : Config => okOutcome) gridConfigs = _
    rw [evalSplitOn,
      show gridConfigs = [cfgA, [("maxD", 3), ("maxE", 3), ("maxBody", 2)],
        [("maxD", 4), ("maxE", 2), ("maxBody", 2)],
        [("maxD", 4), ("maxE", 3), ("maxBody", 2)]] from rfl,
      List.foldl_cons, hupd, List.foldl_cons, hskip _, List.foldl_cons, hskip _,
      List.foldl_cons, hskip _, List.foldl_nil]
  have hsummary : buildSummary [1] (fun _ _ => 0) (fun _ _ => okOutcome) [(0 : ℤ)]
      = [⟨1, 0, 1 / 20, 0, some cfgA, some 2⟩] := by
    rw [buildSummary, show ([(0 : ℤ)].enum) = [((0 : ℕ), (0 : ℤ))] from rfl]
    simp only [List.filterMap_cons, List.filterMap_nil]
    rw [heval]
    rfl
  exact ⟨run_clingo_paired_runtime.1 ProcOutcome.timeout,
    run_clingo_paired_runtime.2 [1] (fun _ _ => 0) (fun _ _ => okOutcome) [(0 : ℤ)] _
      (by rw [hsummary]; exact List.mem_singleton_self _)⟩

end DHCE
